import Mathlib

/-!
Verification of the `xmlwriter` library (a streaming, partially validating
XML writer).  The Rust source (`src/lib.rs`) is shallowly embedded below:
strings are modelled as lists of bytes (`List Nat`, each entry the value of
one UTF-8 byte), the infallible `Vec<u8>` sink is an accumulated byte list,
and Rust panics are modelled as `Except` errors carrying the writer at the
moment of the panic.
-/

namespace Xmlwriter

/-- `enum Indent` from the source: node indentation style. -/
inductive Indent where
  | none
  | spaces (n : Nat)
  | tabs
deriving DecidableEq

/-- `struct Options` from the source. -/
structure Options where
  use_single_quote : Bool
  indent : Indent
  attributes_indent : Indent
deriving DecidableEq

/-- `impl Default for Options`. -/
def defaultOptions : Options :=
  { use_single_quote := false, indent := Indent.spaces 4, attributes_indent := Indent.none }

/-- `enum State` from the source: the writer lifecycle state. -/
inductive State where
  | Empty
  | Document
  | Attributes
  | CData
deriving DecidableEq

/-- `struct DepthData` from the source: one frame of the nesting stack. -/
structure DepthData where
  element_name : Option (List Nat)
  has_children : Bool
deriving DecidableEq

/-- The byte sequence of the string `&amp;` used by `write_escaped`. -/
def ampSeq : List Nat := [38, 97, 109, 112, 59]

/-- The byte sequence of the string `&lt;`. -/
def ltSeq : List Nat := [38, 108, 116, 59]

/-- The byte sequence of the string `&gt;`. -/
def gtSeq : List Nat := [38, 103, 116, 59]

/-- The byte sequence of the string `&quot;`. -/
def quotSeq : List Nat := [38, 113, 117, 111, 116, 59]

/-- The byte sequence of the string `&apos;`. -/
def aposSeq : List Nat := [38, 97, 112, 111, 115, 59]

/-- The `match byte` table inside `FmtWriter::write_escaped`: which escape
sequence (if any) replaces byte `b`, given the `escape_quotes` argument and
the writer's `use_single_quote` flag.  Byte values: 38 `&`, 62 `>`, 60 `<`,
34 `"`, 39 `'`. -/
def escapedByte (escape_quotes use_single_quote : Bool) (b : Nat) : Option (List Nat) :=
  if b = 38 then some ampSeq
  else if b = 62 then some gtSeq
  else if b = 60 then some ltSeq
  else if b = 34 ∧ escape_quotes = true ∧ use_single_quote = false then some quotSeq
  else if b = 39 ∧ escape_quotes = true ∧ use_single_quote = true then some aposSeq
  else none

/-- The loop of `FmtWriter::write_escaped`: `run` is the pending unescaped
run `s[part_start_pos..byte_pos]` (kept reversed); on a byte that must be
escaped the run is flushed followed by the escape sequence, and at the end
of the input the final run is flushed. -/
def write_escaped_aux (escape_quotes use_single_quote : Bool) :
    List Nat → List Nat → List Nat
  | run, [] => run.reverse
  | run, b :: rest =>
    match escapedByte escape_quotes use_single_quote b with
    | some esc => run.reverse ++ esc ++ write_escaped_aux escape_quotes use_single_quote [] rest
    | none => write_escaped_aux escape_quotes use_single_quote (b :: run) rest

/-- `FmtWriter::write_escaped(s, escape_quotes)`: the bytes appended to the
sink when escaping the byte string `s`. -/
def write_escaped (s : List Nat) (escape_quotes use_single_quote : Bool) : List Nat :=
  write_escaped_aux escape_quotes use_single_quote [] s

/-- The per-byte image of the escaping engine: the escape sequence for an
escapable byte, the byte itself otherwise. -/
def escBlock (escape_quotes use_single_quote : Bool) (b : Nat) : List Nat :=
  (escapedByte escape_quotes use_single_quote b).getD [b]

theorem write_escaped_aux_eq (eq usq : Bool) (s : List Nat) : ∀ run : List Nat,
    write_escaped_aux eq usq run s = run.reverse ++ (s.map (escBlock eq usq)).flatten := by
  induction s with
  | nil => intro run; simp [write_escaped_aux]
  | cons b rest ih =>
    intro run
    simp only [write_escaped_aux, escBlock]
    cases h : escapedByte eq usq b with
    | some esc => simp [h, ih [], escBlock, List.append_assoc]
    | none => simp [h, ih (b :: run), escBlock, List.append_assoc]

/-- The escaping engine is a per-byte substitution: every input byte is
written exactly once, either verbatim or as its escape sequence. -/
theorem write_escaped_eq_join (s : List Nat) (eq usq : Bool) :
    write_escaped s eq usq = (s.map (escBlock eq usq)).flatten := by
  simpa using write_escaped_aux_eq eq usq s []

/-- Entity recognizer used by the decoder: if `l` begins with the tail of one
of the five escape sequences (the part after `&`), return the decoded byte
and the number of bytes consumed. -/
def matchEntity (l : List Nat) : Option (Nat × Nat) :=
  if l.take 4 = [97, 109, 112, 59] then some (38, 4)
  else if l.take 3 = [108, 116, 59] then some (60, 3)
  else if l.take 3 = [103, 116, 59] then some (62, 3)
  else if l.take 5 = [113, 117, 111, 116, 59] then some (34, 5)
  else if l.take 5 = [97, 112, 111, 115, 59] then some (39, 5)
  else none

/-- The decoder from the specification of the round-trip property: replace
every occurrence of `&amp;`, `&lt;`, `&gt;`, `&quot;`, `&apos;` by the byte
it denotes, scanning left to right. -/
def unescape : List Nat → List Nat
  | [] => []
  | b :: rest =>
    if b = 38 then
      match matchEntity rest with
      | some (c, k) => c :: unescape (rest.drop k)
      | none => 38 :: unescape rest
    else b :: unescape rest
termination_by l => l.length
decreasing_by
  · simp only [List.length_drop, List.length_cons]
    omega
  · simp only [List.length_cons]
    omega
  · simp only [List.length_cons]
    omega

/-- Well-escapedness from the specification of the round-trip property: the
byte string contains no literal `<` or `>`, and every `&` starts one of the
five escape sequences. -/
def escapedOk : List Nat → Bool
  | [] => true
  | b :: rest =>
    if b = 60 ∨ b = 62 then false
    else if b = 38 then
      match matchEntity rest with
      | some (_, k) => escapedOk (rest.drop k)
      | none => false
    else escapedOk rest
termination_by l => l.length
decreasing_by
  · simp only [List.length_drop, List.length_cons]
    omega
  · simp only [List.length_cons]
    omega

/-- `str::contains` on byte strings: does `l` contain `pat` as a contiguous
substring? -/
def containsSub (pat : List Nat) : List Nat → Bool
  | [] => pat.isPrefixOf []
  | b :: rest => pat.isPrefixOf (b :: rest) || containsSub pat rest

/-- The byte sequence `]]>` terminating a CDATA section. -/
def cdataEnd : List Nat := [93, 93, 62]

theorem unescape_nil : unescape [] = [] := by rw [unescape]

theorem unescape_cons_ne (b : Nat) (l : List Nat) (h : b ≠ 38) :
    unescape (b :: l) = b :: unescape l := by
  rw [unescape]
  simp [h]

theorem unescape_amp (t : List Nat) :
    unescape (ampSeq ++ t) = 38 :: unescape t := by
  rw [ampSeq, List.cons_append, unescape]
  simp [matchEntity]

theorem unescape_lt (t : List Nat) :
    unescape (ltSeq ++ t) = 60 :: unescape t := by
  rw [ltSeq, List.cons_append, unescape]
  simp [matchEntity]

theorem unescape_gt (t : List Nat) :
    unescape (gtSeq ++ t) = 62 :: unescape t := by
  rw [gtSeq, List.cons_append, unescape]
  simp [matchEntity]

theorem unescape_quot (t : List Nat) :
    unescape (quotSeq ++ t) = 34 :: unescape t := by
  rw [quotSeq, List.cons_append, unescape]
  simp [matchEntity]

theorem unescape_apos (t : List Nat) :
    unescape (aposSeq ++ t) = 39 :: unescape t := by
  rw [aposSeq, List.cons_append, unescape]
  simp [matchEntity]

/-- Decoding one block of escaped output recovers the original byte. -/
theorem unescape_block (eq usq : Bool) (b : Nat) (t : List Nat) :
    unescape (escBlock eq usq b ++ t) = b :: unescape t := by
  unfold escBlock escapedByte
  split_ifs with h1 h2 h3 h4 h5
  · subst h1; simpa using unescape_amp t
  · subst h2; simpa using unescape_gt t
  · subst h3; simpa using unescape_lt t
  · obtain ⟨hb, -, -⟩ := h4; subst hb; simpa using unescape_quot t
  · obtain ⟨hb, -, -⟩ := h5; subst hb; simpa using unescape_apos t
  · simpa using unescape_cons_ne b t h1

theorem escapedOk_nil : escapedOk [] = true := by rw [escapedOk]

theorem escapedOk_cons_plain (b : Nat) (l : List Nat)
    (h60 : b ≠ 60) (h62 : b ≠ 62) (h38 : b ≠ 38) :
    escapedOk (b :: l) = escapedOk l := by
  rw [escapedOk]
  simp [h60, h62, h38]

theorem escapedOk_amp (t : List Nat) : escapedOk (ampSeq ++ t) = escapedOk t := by
  rw [ampSeq, List.cons_append, escapedOk]
  simp [matchEntity]

theorem escapedOk_lt (t : List Nat) : escapedOk (ltSeq ++ t) = escapedOk t := by
  rw [ltSeq, List.cons_append, escapedOk]
  simp [matchEntity]

theorem escapedOk_gt (t : List Nat) : escapedOk (gtSeq ++ t) = escapedOk t := by
  rw [gtSeq, List.cons_append, escapedOk]
  simp [matchEntity]

theorem escapedOk_quot (t : List Nat) : escapedOk (quotSeq ++ t) = escapedOk t := by
  rw [quotSeq, List.cons_append, escapedOk]
  simp [matchEntity]

theorem escapedOk_apos (t : List Nat) : escapedOk (aposSeq ++ t) = escapedOk t := by
  rw [aposSeq, List.cons_append, escapedOk]
  simp [matchEntity]

/-- A block of escaped output is well escaped and leaves the rest of the
string to be checked. -/
theorem escapedOk_block (eq usq : Bool) (b : Nat) (t : List Nat) :
    escapedOk (escBlock eq usq b ++ t) = escapedOk t := by
  unfold escBlock escapedByte
  split_ifs with h1 h2 h3 h4 h5
  · subst h1; simpa using escapedOk_amp t
  · subst h2; simpa using escapedOk_gt t
  · subst h3; simpa using escapedOk_lt t
  · obtain ⟨hb, -, -⟩ := h4; subst hb; simpa using escapedOk_quot t
  · obtain ⟨hb, -, -⟩ := h5; subst hb; simpa using escapedOk_apos t
  · have h60 : b ≠ 60 := fun hb => h3 (by simp [hb])
    have h62 : b ≠ 62 := fun hb => h2 (by simp [hb])
    simpa using escapedOk_cons_plain b t h60 h62 h1

/-- Every byte of a block of escaped output differs from `62` (`>`). -/
theorem escBlock_not_mem_62 (eq usq : Bool) (b x : Nat)
    (hx : x ∈ escBlock eq usq b) : x ≠ 62 := by
  intro hx62
  subst hx62
  revert hx
  unfold escBlock escapedByte
  split_ifs with h1 h2 h3 h4 h5
  · simp [ampSeq]
  · simp [gtSeq]
  · simp [ltSeq]
  · simp [quotSeq]
  · simp [aposSeq]
  · simp only [Option.getD_none, List.mem_singleton]
    intro hb
    exact h2 hb.symm

/-- The escaped output never contains the byte `62` (`>`). -/
theorem write_escaped_not_mem_62 (s : List Nat) (eq usq : Bool) :
    (62 : Nat) ∉ write_escaped s eq usq := by
  rw [write_escaped_eq_join]
  intro hmem
  obtain ⟨l, hl, hx⟩ := List.mem_flatten.1 hmem
  obtain ⟨b, -, hb⟩ := List.mem_map.1 hl
  exact escBlock_not_mem_62 eq usq b 62 (hb ▸ hx) rfl

/-- If `]]>` is a prefix of `l` then `l` contains the byte `62`. -/
theorem mem_62_of_cdataEnd_isPrefixOf (l : List Nat)
    (h : cdataEnd.isPrefixOf l = true) : (62 : Nat) ∈ l := by
  match l with
  | [] => simp [cdataEnd, List.isPrefixOf] at h
  | [a] => simp [cdataEnd, List.isPrefixOf] at h
  | [a, b] => simp [cdataEnd, List.isPrefixOf] at h
  | a :: b :: c :: t =>
    simp only [cdataEnd, List.isPrefixOf, Bool.and_eq_true, beq_iff_eq] at h
    obtain ⟨-, -, hc, -⟩ := h
    subst hc
    simp

/-- A byte string without the byte `62` cannot contain `]]>`. -/
theorem containsSub_cdataEnd_eq_false (l : List Nat) (h : (62 : Nat) ∉ l) :
    containsSub cdataEnd l = false := by
  induction l with
  | nil => rfl
  | cons b rest ih =>
    have h1 : cdataEnd.isPrefixOf (b :: rest) = false := by
      cases hp : cdataEnd.isPrefixOf (b :: rest) with
      | false => rfl
      | true => exact absurd (mem_62_of_cdataEnd_isPrefixOf _ hp) h
    have h2 : containsSub cdataEnd rest = false :=
      ih (fun hm => h (List.mem_cons_of_mem b hm))
    simp [containsSub, h1, h2]

/-- Which fatal precondition (Rust `panic!` or `expect`) aborted an
operation. -/
inductive Panic where
  /-- `"declaration was already written"` in `write_declaration`. -/
  | declarationAlreadyWritten
  /-- `"must be called after start_element()"` in the attribute and text
  paths. -/
  | mustBeCalledAfterStartElement
  /-- `"CDATA text must not contain ]]>"` in `write_cdata_text`. -/
  | cdataForbidden
  /-- The `expect` on `element_name` in `end_element`. -/
  | missingElementName
deriving DecidableEq

/-- `struct XmlWriter`: the sink (`out`, the bytes written so far), the
lifecycle state, the preserve-whitespace flag, the nesting stack (innermost
frame first, matching the end of the Rust `Vec`) and the options. -/
structure XmlWriter where
  out : List Nat
  state : State
  preserve_whitespaces : Bool
  depth_stack : List DepthData
  opt : Options
deriving DecidableEq

/-- `XmlWriter::new` with an empty sink. -/
def new (opt : Options) : XmlWriter :=
  { out := [], state := State.Empty, preserve_whitespaces := false,
    depth_stack := [], opt := opt }

/-- Append bytes to the sink (`write_all` on the infallible byte sink). -/
def wr (w : XmlWriter) (bs : List Nat) : XmlWriter := { w with out := w.out ++ bs }

@[simp] theorem wr_out (w : XmlWriter) (bs : List Nat) : (wr w bs).out = w.out ++ bs := rfl

@[simp] theorem wr_state (w : XmlWriter) (bs : List Nat) : (wr w bs).state = w.state := rfl

@[simp] theorem wr_stack (w : XmlWriter) (bs : List Nat) :
    (wr w bs).depth_stack = w.depth_stack := rfl

@[simp] theorem wr_pw (w : XmlWriter) (bs : List Nat) :
    (wr w bs).preserve_whitespaces = w.preserve_whitespaces := rfl

@[simp] theorem wr_opt (w : XmlWriter) (bs : List Nat) : (wr w bs).opt = w.opt := rfl

/-- `XmlWriter::get_quote_char`. -/
def get_quote_char (w : XmlWriter) : Nat := if w.opt.use_single_quote then 39 else 34

/-- `XmlWriter::write_quote`. -/
def write_quote (w : XmlWriter) : XmlWriter := wr w [get_quote_char w]

/-- One unit of indentation written by the loop body of
`XmlWriter::write_indent`. -/
def indentUnit : Indent → List Nat
  | Indent.none => []
  | Indent.spaces n => List.replicate n 32
  | Indent.tabs => [9]

/-- `XmlWriter::write_indent(depth, indent)`. -/
def write_indent (w : XmlWriter) (depth : Nat) (indent : Indent) : XmlWriter :=
  if indent = Indent.none ∨ w.preserve_whitespaces = true then w
  else wr w (List.replicate depth (indentUnit indent)).flatten

/-- `XmlWriter::write_node_indent`. -/
def write_node_indent (w : XmlWriter) : XmlWriter :=
  write_indent w w.depth_stack.length w.opt.indent

/-- `XmlWriter::write_new_line`. -/
def write_new_line (w : XmlWriter) : XmlWriter :=
  if w.opt.indent ≠ Indent.none ∧ w.preserve_whitespaces = false then wr w [10] else w

/-- `XmlWriter::write_open_element`: terminate the pending start tag with
`>` and mark the innermost frame as having children. -/
def write_open_element (w : XmlWriter) : XmlWriter :=
  match w.depth_stack with
  | [] => w
  | depth :: rest =>
    { w with out := w.out ++ [62],
             depth_stack := { depth with has_children := true } :: rest,
             state := State.Document }

/-- `XmlWriter::write_attribute_prefix` (renamed here): separator (a space,
or a newline plus indentation when attribute indentation is on), the
attribute name, `=`, and the opening quote. -/
def write_attribute_lead (w : XmlWriter) (name : List Nat) : XmlWriter :=
  let w1 :=
    if w.opt.attributes_indent = Indent.none then wr w [32]
    else
      let wa := wr w [10]
      let wb := if 0 < w.depth_stack.length
        then write_indent wa (w.depth_stack.length - 1) w.opt.indent else wa
      write_indent wb 1 w.opt.attributes_indent
  write_quote (wr w1 (name ++ [61]))

/-- The body of `XmlWriter::write_attribute_raw` after its state check:
prefix, the raw value bytes produced by the caller's closure, closing
quote. -/
def write_attribute_raw_body (w : XmlWriter) (name raw : List Nat) : XmlWriter :=
  write_quote (wr (write_attribute_lead w name) raw)

/-- `XmlWriter::write_declaration`. -/
def write_declaration (w : XmlWriter) : Except (Panic × XmlWriter) XmlWriter :=
  if w.state ≠ State.Empty then .error (Panic.declarationAlreadyWritten, w)
  else
    let w1 := { w with state := State.Attributes }
    let w2 := wr w1 [60, 63, 120, 109, 108]
    let w3 := write_attribute_raw_body w2 [118, 101, 114, 115, 105, 111, 110] [49, 46, 48]
    let w4 := write_attribute_raw_body w3 [101, 110, 99, 111, 100, 105, 110, 103]
      [85, 84, 70, 45, 56]
    let w5 := write_attribute_raw_body w4 [115, 116, 97, 110, 100, 97, 108, 111, 110, 101]
      [110, 111]
    .ok { (wr w5 [63, 62]) with state := State.Document }

/-- `XmlWriter::write_comment_fmt` (with the comment text already
rendered to bytes; comments are written without escaping). -/
def write_comment_fmt (w : XmlWriter) (text : List Nat) : XmlWriter :=
  let w1 := if w.state = State.Attributes then write_open_element w else w
  let w2 := if w1.state ≠ State.Empty then write_new_line w1 else w1
  let w3 := write_node_indent w2
  let w4 := wr w3 ([60, 33, 45, 45] ++ text ++ [45, 45, 62])
  let w5 := if w4.state = State.Attributes
    then { w4 with depth_stack := ⟨none, false⟩ :: w4.depth_stack } else w4
  { w5 with state := State.Document }

/-- `XmlWriter::start_element`. -/
def start_element (w : XmlWriter) (name : List Nat) : XmlWriter :=
  let w1 := if w.state = State.Attributes then write_open_element w else w
  let w2 := if w1.state ≠ State.Empty then write_new_line w1 else w1
  let w3 := if w2.preserve_whitespaces = false then write_node_indent w2 else w2
  let w4 := wr w3 ([60] ++ name)
  { w4 with depth_stack := ⟨some name, false⟩ :: w4.depth_stack, state := State.Attributes }

/-- `XmlWriter::write_attribute_fmt` (with the value already rendered to
bytes; the value is escaped in `AttributeValue` context). -/
def write_attribute_fmt (w : XmlWriter) (name value : List Nat) :
    Except (Panic × XmlWriter) XmlWriter :=
  if w.state ≠ State.Attributes then .error (Panic.mustBeCalledAfterStartElement, w)
  else .ok (write_quote (wr (write_attribute_lead w name)
    (write_escaped value true w.opt.use_single_quote)))

/-- `XmlWriter::write_attribute_raw` (with the closure's output given as
the byte list it writes). -/
def write_attribute_raw (w : XmlWriter) (name raw : List Nat) :
    Except (Panic × XmlWriter) XmlWriter :=
  if w.state ≠ State.Attributes then .error (Panic.mustBeCalledAfterStartElement, w)
  else .ok (write_attribute_raw_body w name raw)

/-- `XmlWriter::write_text_fmt_impl` (with the text already rendered to
bytes): text nodes are escaped in `Text` context, CDATA is written raw. -/
def write_text_fmt_impl (w : XmlWriter) (text : List Nat) (cdata : Bool) :
    Except (Panic × XmlWriter) XmlWriter :=
  if w.state = State.Empty ∨ w.depth_stack = [] then
    .error (Panic.mustBeCalledAfterStartElement, w)
  else
    let w1 := if w.state = State.Attributes then write_open_element w else w
    let w2 := if cdata = true ∧ w1.state ≠ State.CData
      then wr w1 [60, 33, 91, 67, 68, 65, 84, 65, 91] else w1
    let w3 := if w2.state ≠ State.Empty then write_new_line w2 else w2
    let w4 := write_node_indent w3
    let w5 := wr w4 (if cdata then text else write_escaped text false w.opt.use_single_quote)
    let w6 := if w5.state = State.Attributes
      then { w5 with depth_stack := ⟨none, false⟩ :: w5.depth_stack } else w5
    .ok { w6 with state := if cdata then State.CData else State.Document }

/-- `XmlWriter::write_cdata_text`. -/
def write_cdata_text (w : XmlWriter) (text : List Nat) :
    Except (Panic × XmlWriter) XmlWriter :=
  if containsSub cdataEnd text then .error (Panic.cdataForbidden, w)
  else write_text_fmt_impl w text true

/-- `XmlWriter::end_element`. -/
def end_element (w : XmlWriter) : Except (Panic × XmlWriter) XmlWriter :=
  match w.depth_stack with
  | [] => .ok { w with state := State.Document }
  | depth :: rest =>
    let w1 := { w with depth_stack := rest }
    if depth.has_children then
      let w2 := if w1.preserve_whitespaces = false
        then write_node_indent (write_new_line w1) else w1
      let w3 := if w2.state = State.CData then wr w2 cdataEnd else w2
      let w4 := wr w3 [60, 47]
      match depth.element_name with
      | none => .error (Panic.missingElementName, w4)
      | some name => .ok { (wr w4 (name ++ [62])) with state := State.Document }
    else .ok { (wr w1 [47, 62]) with state := State.Document }

/-- `XmlWriter::set_preserve_whitespaces`. -/
def set_preserve_whitespaces (w : XmlWriter) (preserve : Bool) : XmlWriter :=
  { w with preserve_whitespaces := preserve }

@[simp] theorem write_quote_state (w : XmlWriter) : (write_quote w).state = w.state := rfl

@[simp] theorem write_quote_stack (w : XmlWriter) :
    (write_quote w).depth_stack = w.depth_stack := rfl

@[simp] theorem write_quote_pw (w : XmlWriter) :
    (write_quote w).preserve_whitespaces = w.preserve_whitespaces := rfl

@[simp] theorem write_quote_opt (w : XmlWriter) : (write_quote w).opt = w.opt := rfl

@[simp] theorem write_indent_state (w : XmlWriter) (d : Nat) (i : Indent) :
    (write_indent w d i).state = w.state := by
  unfold write_indent; split <;> rfl

@[simp] theorem write_indent_stack (w : XmlWriter) (d : Nat) (i : Indent) :
    (write_indent w d i).depth_stack = w.depth_stack := by
  unfold write_indent; split <;> rfl

@[simp] theorem write_indent_pw (w : XmlWriter) (d : Nat) (i : Indent) :
    (write_indent w d i).preserve_whitespaces = w.preserve_whitespaces := by
  unfold write_indent; split <;> rfl

@[simp] theorem write_indent_opt (w : XmlWriter) (d : Nat) (i : Indent) :
    (write_indent w d i).opt = w.opt := by
  unfold write_indent; split <;> rfl

@[simp] theorem write_node_indent_state (w : XmlWriter) :
    (write_node_indent w).state = w.state := by simp [write_node_indent]

@[simp] theorem write_node_indent_stack (w : XmlWriter) :
    (write_node_indent w).depth_stack = w.depth_stack := by simp [write_node_indent]

@[simp] theorem write_node_indent_pw (w : XmlWriter) :
    (write_node_indent w).preserve_whitespaces = w.preserve_whitespaces := by
  simp [write_node_indent]

@[simp] theorem write_node_indent_opt (w : XmlWriter) :
    (write_node_indent w).opt = w.opt := by simp [write_node_indent]

@[simp] theorem write_new_line_state (w : XmlWriter) :
    (write_new_line w).state = w.state := by
  unfold write_new_line; split <;> rfl

@[simp] theorem write_new_line_stack (w : XmlWriter) :
    (write_new_line w).depth_stack = w.depth_stack := by
  unfold write_new_line; split <;> rfl

@[simp] theorem write_new_line_pw (w : XmlWriter) :
    (write_new_line w).preserve_whitespaces = w.preserve_whitespaces := by
  unfold write_new_line; split <;> rfl

@[simp] theorem write_new_line_opt (w : XmlWriter) :
    (write_new_line w).opt = w.opt := by
  unfold write_new_line; split <;> rfl

@[simp] theorem write_open_element_pw (w : XmlWriter) :
    (write_open_element w).preserve_whitespaces = w.preserve_whitespaces := by
  unfold write_open_element; cases h : w.depth_stack <;> simp [h]

@[simp] theorem write_open_element_opt (w : XmlWriter) :
    (write_open_element w).opt = w.opt := by
  unfold write_open_element; cases h : w.depth_stack <;> simp [h]

@[simp] theorem write_open_element_stack_length (w : XmlWriter) :
    (write_open_element w).depth_stack.length = w.depth_stack.length := by
  unfold write_open_element; cases h : w.depth_stack <;> simp [h]

@[simp] theorem write_attribute_lead_state (w : XmlWriter) (name : List Nat) :
    (write_attribute_lead w name).state = w.state := by
  simp only [write_attribute_lead]; split_ifs <;> simp

@[simp] theorem write_attribute_lead_stack (w : XmlWriter) (name : List Nat) :
    (write_attribute_lead w name).depth_stack = w.depth_stack := by
  simp only [write_attribute_lead]; split_ifs <;> simp

@[simp] theorem write_attribute_lead_pw (w : XmlWriter) (name : List Nat) :
    (write_attribute_lead w name).preserve_whitespaces = w.preserve_whitespaces := by
  simp only [write_attribute_lead]; split_ifs <;> simp

@[simp] theorem write_attribute_lead_opt (w : XmlWriter) (name : List Nat) :
    (write_attribute_lead w name).opt = w.opt := by
  simp only [write_attribute_lead]; split_ifs <;> simp

@[simp] theorem write_attribute_raw_body_state (w : XmlWriter) (name raw : List Nat) :
    (write_attribute_raw_body w name raw).state = w.state := by
  simp [write_attribute_raw_body]

@[simp] theorem write_attribute_raw_body_stack (w : XmlWriter) (name raw : List Nat) :
    (write_attribute_raw_body w name raw).depth_stack = w.depth_stack := by
  simp [write_attribute_raw_body]

@[simp] theorem write_attribute_raw_body_pw (w : XmlWriter) (name raw : List Nat) :
    (write_attribute_raw_body w name raw).preserve_whitespaces = w.preserve_whitespaces := by
  simp [write_attribute_raw_body]

@[simp] theorem write_attribute_raw_body_opt (w : XmlWriter) (name raw : List Nat) :
    (write_attribute_raw_body w name raw).opt = w.opt := by
  simp [write_attribute_raw_body]

/-- On success `end_element` pops exactly the innermost frame. -/
theorem end_element_stack (w wA : XmlWriter) (h : end_element w = .ok wA) :
    wA.depth_stack = w.depth_stack.tail := by
  unfold end_element at h
  cases hs : w.depth_stack with
  | nil =>
    rw [hs] at h
    cases h
    simp [hs]
  | cons depth rest =>
    rw [hs] at h
    simp only at h
    split at h
    · cases hn : depth.element_name with
      | none => rw [hn] at h; cases h
      | some name =>
        rw [hn] at h
        cases h
        simp [hs, apply_ite XmlWriter.depth_stack]
    · cases h
      simp [hs]

/-- The loop of `XmlWriter::end_document`: `while !depth_stack.is_empty()
{ end_element()?; }`.  The loop is translated with its termination measure
as structural fuel: every successful `end_element` pops exactly one frame
(`end_element_stack`), so running the body `depth_stack.length` times is
the `while` loop. -/
def end_document_go : Nat → XmlWriter → Except (Panic × XmlWriter) XmlWriter
  | 0, w => .ok w
  | fuel + 1, w =>
    if w.depth_stack = [] then .ok w
    else
      match end_element w with
      | .error e => .error e
      | .ok wA => end_document_go fuel wA

/-- `XmlWriter::end_document`: close every open element, write the trailing
newline and hand the sink back. -/
def end_document (w : XmlWriter) : Except (Panic × XmlWriter) (List Nat) :=
  match end_document_go w.depth_stack.length w with
  | .error e => .error e
  | .ok wA => .ok (write_new_line wA).out

/-- One public operation of the writer (text arguments already rendered to
bytes). -/
inductive Op where
  | write_declaration
  | write_comment (text : List Nat)
  | start_element (name : List Nat)
  | write_attribute (name value : List Nat)
  | write_attribute_raw (name raw : List Nat)
  | write_text (text : List Nat)
  | write_cdata_text (text : List Nat)
  | end_element
  | set_preserve_whitespaces (preserve : Bool)
deriving DecidableEq

/-- Apply one public operation. -/
def step : Op → XmlWriter → Except (Panic × XmlWriter) XmlWriter
  | Op.write_declaration, w => write_declaration w
  | Op.write_comment text, w => .ok (write_comment_fmt w text)
  | Op.start_element name, w => .ok (start_element w name)
  | Op.write_attribute name value, w => write_attribute_fmt w name value
  | Op.write_attribute_raw name raw, w => write_attribute_raw w name raw
  | Op.write_text text, w => write_text_fmt_impl w text false
  | Op.write_cdata_text text, w => write_cdata_text w text
  | Op.end_element, w => end_element w
  | Op.set_preserve_whitespaces preserve, w => .ok (set_preserve_whitespaces w preserve)

/-- Run a list of public operations, stopping at the first panic. -/
def run : List Op → XmlWriter → Except (Panic × XmlWriter) XmlWriter
  | [], w => .ok w
  | op :: ops, w =>
    match step op w with
    | .error e => .error e
    | .ok wA => run ops wA

/-- The bytes `write_new_line` appends, as a function of the indent option
and the preserve-whitespace flag. -/
def nlBytes (indent : Indent) (pw : Bool) : List Nat :=
  if indent ≠ Indent.none ∧ pw = false then [10] else []

/-- The bytes `write_indent` appends. -/
def ndBytes (pw : Bool) (depth : Nat) (indent : Indent) : List Nat :=
  if indent = Indent.none ∨ pw = true then []
  else (List.replicate depth (indentUnit indent)).flatten

@[simp] theorem wr_nil (w : XmlWriter) : wr w [] = w := by
  simp [wr]

@[simp] theorem wr_wr (w : XmlWriter) (a b : List Nat) : wr (wr w a) b = wr w (a ++ b) := by
  simp [wr]

theorem write_new_line_eq (w : XmlWriter) :
    write_new_line w = wr w (nlBytes w.opt.indent w.preserve_whitespaces) := by
  unfold write_new_line nlBytes
  split <;> simp

theorem write_indent_eq (w : XmlWriter) (d : Nat) (i : Indent) :
    write_indent w d i = wr w (ndBytes w.preserve_whitespaces d i) := by
  unfold write_indent ndBytes
  split <;> simp

theorem write_node_indent_eq (w : XmlWriter) :
    write_node_indent w =
      wr w (ndBytes w.preserve_whitespaces w.depth_stack.length w.opt.indent) := by
  rw [write_node_indent, write_indent_eq]

/-- Mark the innermost frame as having children (the effect of
`write_open_element` on the stack). -/
def markChildren : List DepthData → List DepthData
  | [] => []
  | depth :: rest => { depth with has_children := true } :: rest

theorem write_open_element_eq (w : XmlWriter) (h : w.depth_stack ≠ []) :
    write_open_element w =
      { w with out := w.out ++ [62], depth_stack := markChildren w.depth_stack,
               state := State.Document } := by
  unfold write_open_element
  cases hs : w.depth_stack with
  | nil => exact absurd hs h
  | cons depth rest => simp [markChildren]

@[simp] theorem markChildren_length (l : List DepthData) :
    (markChildren l).length = l.length := by
  cases l <;> simp [markChildren]

theorem markChildren_names (l : List DepthData) (f : DepthData) (hf : f ∈ markChildren l) :
    ∃ g ∈ l, g.element_name = f.element_name := by
  cases l with
  | nil => simp [markChildren] at hf
  | cons depth rest =>
    simp only [markChildren, List.mem_cons] at hf
    rcases hf with hf | hf
    · exact ⟨depth, List.mem_cons_self depth rest, by rw [hf]⟩
    · exact ⟨f, List.mem_cons_of_mem depth hf, rfl⟩

@[simp] theorem wr_ite (c : Prop) [Decidable c] (v : XmlWriter) (bs : List Nat) :
    (if c then wr v bs else v) = wr v (if c then bs else []) := by
  split <;> simp

@[simp] theorem ite_wr_wr (c : Prop) [Decidable c] (v : XmlWriter) (a b : List Nat) :
    (if c then wr v a else wr v b) = wr v (if c then a else b) := by
  split <;> rfl

/-- The quote byte for the configured quote style. -/
def quoteChar (usq : Bool) : Nat := if usq then 39 else 34

theorem write_quote_eq (w : XmlWriter) :
    write_quote w = wr w [quoteChar w.opt.use_single_quote] := rfl

/-- The bytes emitted by `write_attribute_prefix`: separator (or newline and
indentation), attribute name, `=`, opening quote. -/
def leadBytes (opt : Options) (pw : Bool) (len : Nat) (name : List Nat) : List Nat :=
  (if opt.attributes_indent = Indent.none then [32]
   else [10] ++ (if 0 < len then ndBytes pw (len - 1) opt.indent else [])
     ++ ndBytes pw 1 opt.attributes_indent)
  ++ name ++ [61] ++ [quoteChar opt.use_single_quote]

theorem write_attribute_lead_eq (w : XmlWriter) (name : List Nat) :
    write_attribute_lead w name =
      wr w (leadBytes w.opt w.preserve_whitespaces w.depth_stack.length name) := by
  rw [write_attribute_lead, leadBytes]
  by_cases ha : w.opt.attributes_indent = Indent.none
  · simp [ha, write_quote_eq, wr, quoteChar, get_quote_char, List.append_assoc]
  · by_cases hl : 0 < w.depth_stack.length <;>
      simp [ha, hl, write_indent_eq, write_quote_eq, wr, quoteChar, get_quote_char,
        List.append_assoc]

theorem write_attribute_raw_body_eq (w : XmlWriter) (name raw : List Nat) :
    write_attribute_raw_body w name raw =
      wr w (leadBytes w.opt w.preserve_whitespaces w.depth_stack.length name
        ++ raw ++ [quoteChar w.opt.use_single_quote]) := by
  rw [write_attribute_raw_body, write_attribute_lead_eq, write_quote_eq]
  simp [List.append_assoc]

@[simp] theorem getLast?_cons_or (a : Nat) (l : List Nat) :
    (a :: l).getLast? = l.getLast?.or (some a) := by
  induction l generalizing a with
  | nil => rfl
  | cons b m ih =>
    rw [List.getLast?_cons_cons, ih b]
    cases hm : m.getLast? <;> simp

/-- Effect of `write_comment_fmt` on every component of the writer: the
placeholder push is never taken when a pending `Attributes` state implies a
nonempty stack, and the written bytes end with `>` (byte 62). -/
theorem write_comment_fmt_spec (w : XmlWriter) (t : List Nat)
    (hA : w.state = State.Attributes → w.depth_stack ≠ []) :
    (write_comment_fmt w t).state = State.Document ∧
    (write_comment_fmt w t).depth_stack =
      (if w.state = State.Attributes then markChildren w.depth_stack
       else w.depth_stack) ∧
    (write_comment_fmt w t).preserve_whitespaces = w.preserve_whitespaces ∧
    (write_comment_fmt w t).opt = w.opt ∧
    (write_comment_fmt w t).out.getLast? = some 62 := by
  by_cases hs : w.state = State.Attributes
  · rw [write_comment_fmt, if_pos hs, write_open_element_eq w (hA hs)]
    simp [write_new_line_eq, write_node_indent_eq, hs, List.append_assoc]
  · rw [write_comment_fmt, if_neg hs]
    by_cases he : w.state = State.Empty <;>
      simp [write_new_line_eq, write_node_indent_eq, hs, he, List.append_assoc]

/-- Effect of `start_element` on every component of the writer. -/
theorem start_element_spec (w : XmlWriter) (name : List Nat)
    (hA : w.state = State.Attributes → w.depth_stack ≠ []) :
    (start_element w name).state = State.Attributes ∧
    (start_element w name).depth_stack =
      (⟨some name, false⟩ : DepthData) ::
        (if w.state = State.Attributes then markChildren w.depth_stack
         else w.depth_stack) ∧
    (start_element w name).preserve_whitespaces = w.preserve_whitespaces ∧
    (start_element w name).opt = w.opt ∧
    ∃ p, (start_element w name).out = w.out ++ p := by
  by_cases hs : w.state = State.Attributes
  · rw [start_element, if_pos hs, write_open_element_eq w (hA hs)]
    simp [write_new_line_eq, write_node_indent_eq, hs, List.append_assoc]
  · rw [start_element, if_neg hs]
    by_cases he : w.state = State.Empty <;>
      simp [write_new_line_eq, write_node_indent_eq, hs, he, List.append_assoc]

/-- `write_declaration` in state `Empty` succeeds; the result only appends
bytes ending in `>` and moves the state to `Document`. -/
theorem write_declaration_spec (w : XmlWriter) (hE : w.state = State.Empty) :
    ∃ wA, write_declaration w = .ok wA ∧
      wA.state = State.Document ∧
      wA.depth_stack = w.depth_stack ∧
      wA.preserve_whitespaces = w.preserve_whitespaces ∧
      wA.opt = w.opt ∧
      wA.out.getLast? = some 62 := by
  rw [write_declaration, if_neg (by simp [hE])]
  refine ⟨_, rfl, ?_⟩
  simp [hE, write_attribute_raw_body_eq, List.append_assoc]

/-- `write_attribute_fmt` outside state `Attributes` panics; inside it, it
only appends bytes and changes nothing else. -/
theorem write_attribute_fmt_spec (w : XmlWriter) (name value : List Nat) :
    (w.state ≠ State.Attributes →
      write_attribute_fmt w name value = .error (Panic.mustBeCalledAfterStartElement, w)) ∧
    (w.state = State.Attributes → ∃ wA, write_attribute_fmt w name value = .ok wA ∧
      wA.state = w.state ∧ wA.depth_stack = w.depth_stack ∧
      wA.preserve_whitespaces = w.preserve_whitespaces ∧ wA.opt = w.opt ∧
      ∃ p, wA.out = w.out ++ p) := by
  constructor
  · intro hs
    rw [write_attribute_fmt, if_pos hs]
  · intro hs
    rw [write_attribute_fmt, if_neg (by simp [hs])]
    refine ⟨_, rfl, ?_⟩
    simp [write_attribute_lead_eq, write_quote_eq, List.append_assoc]

/-- `write_attribute_raw` outside state `Attributes` panics; inside it, it
only appends bytes and changes nothing else. -/
theorem write_attribute_raw_spec (w : XmlWriter) (name raw : List Nat) :
    (w.state ≠ State.Attributes →
      write_attribute_raw w name raw = .error (Panic.mustBeCalledAfterStartElement, w)) ∧
    (w.state = State.Attributes → ∃ wA, write_attribute_raw w name raw = .ok wA ∧
      wA.state = w.state ∧ wA.depth_stack = w.depth_stack ∧
      wA.preserve_whitespaces = w.preserve_whitespaces ∧ wA.opt = w.opt ∧
      ∃ p, wA.out = w.out ++ p) := by
  constructor
  · intro hs
    rw [write_attribute_raw, if_pos hs]
  · intro hs
    rw [write_attribute_raw, if_neg (by simp [hs])]
    refine ⟨_, rfl, ?_⟩
    simp [write_attribute_raw_body_eq, List.append_assoc]

/-- Effect of a successful `write_text_fmt_impl` on every component of the
writer: the placeholder push is never taken when a pending `Attributes`
state implies a nonempty stack. -/
theorem write_text_fmt_impl_spec (w : XmlWriter) (t : List Nat) (cdata : Bool)
    (hA : w.state = State.Attributes → w.depth_stack ≠ [])
    (hne : ¬(w.state = State.Empty ∨ w.depth_stack = [])) :
    ∃ wA, write_text_fmt_impl w t cdata = .ok wA ∧
      wA.state = (if cdata then State.CData else State.Document) ∧
      wA.depth_stack =
        (if w.state = State.Attributes then markChildren w.depth_stack
         else w.depth_stack) ∧
      wA.preserve_whitespaces = w.preserve_whitespaces ∧
      wA.opt = w.opt ∧
      ∃ p, wA.out = w.out ++ p := by
  have hE : ¬ w.state = State.Empty := fun h => hne (Or.inl h)
  rw [write_text_fmt_impl, if_neg hne]
  refine ⟨_, rfl, ?_⟩
  by_cases hs : w.state = State.Attributes
  · rw [if_pos hs, write_open_element_eq w (hA hs)]
    simp [write_new_line_eq, write_node_indent_eq, hs, List.append_assoc]
  · rw [if_neg hs]
    simp [write_new_line_eq, write_node_indent_eq, hs, hE, List.append_assoc]

/-- `write_text_fmt_impl` called with `cdata = false` while the writer is in
the `CData` state: the open CDATA section is not terminated — the emitted
bytes are only the newline, the indentation and the escaped text, and the
state becomes `Document`. -/
theorem write_text_fmt_impl_from_cdata (w : XmlWriter) (t : List Nat)
    (hst : w.state = State.CData) (hstk : w.depth_stack ≠ []) :
    write_text_fmt_impl w t false =
      .ok { w with
        out := w.out ++ (nlBytes w.opt.indent w.preserve_whitespaces ++
          (ndBytes w.preserve_whitespaces w.depth_stack.length w.opt.indent ++
            write_escaped t false w.opt.use_single_quote)),
        state := State.Document } := by
  rw [write_text_fmt_impl, if_neg (by simp [hst, hstk])]
  simp [hst, write_new_line_eq, write_node_indent_eq, List.append_assoc]

theorem end_element_empty (w : XmlWriter) (h : w.depth_stack = []) :
    end_element w = .ok { w with state := State.Document } := by
  unfold end_element
  simp [h]

/-- `end_element` on a nonempty stack whose innermost frame is a named one
with children: pop it, then newline and indentation at the parent depth
(unless preserving whitespace), the CDATA terminator if a CDATA section is
open, and `</name>`. -/
theorem end_element_cons_named (w : XmlWriter) (depth : DepthData)
    (rest : List DepthData) (name : List Nat) (h : w.depth_stack = depth :: rest)
    (hc : depth.has_children = true) (hn : depth.element_name = some name) :
    end_element w = .ok
      { out := w.out ++
          ((if w.state = State.CData then
              (if w.preserve_whitespaces = false then
                  nlBytes w.opt.indent w.preserve_whitespaces ++
                    ndBytes w.preserve_whitespaces rest.length w.opt.indent
                else []) ++ cdataEnd
            else
              if w.preserve_whitespaces = false then
                nlBytes w.opt.indent w.preserve_whitespaces ++
                  ndBytes w.preserve_whitespaces rest.length w.opt.indent
              else []) ++ 60 :: 47 :: (name ++ [62])),
        state := State.Document, preserve_whitespaces := w.preserve_whitespaces,
        depth_stack := rest, opt := w.opt } := by
  unfold end_element
  simp [h, hc, hn, write_new_line_eq, write_node_indent_eq, List.append_assoc]

/-- `end_element` on a nonempty stack whose innermost frame has no
children: pop it and emit `/>`. -/
theorem end_element_cons_childless (w : XmlWriter) (depth : DepthData)
    (rest : List DepthData) (h : w.depth_stack = depth :: rest)
    (hc : depth.has_children = false) :
    end_element w = .ok
      { out := w.out ++ [47, 62], state := State.Document,
        preserve_whitespaces := w.preserve_whitespaces,
        depth_stack := rest, opt := w.opt } := by
  unfold end_element
  simp [h, hc]

/-- `end_element` on a frame with children but no recorded name hits the
`expect` panic. -/
theorem end_element_cons_unnamed (w : XmlWriter) (depth : DepthData)
    (rest : List DepthData) (h : w.depth_stack = depth :: rest)
    (hc : depth.has_children = true) (hn : depth.element_name = none) :
    end_element w = .error (Panic.missingElementName,
      wr { out := w.out, state := w.state,
           preserve_whitespaces := w.preserve_whitespaces, depth_stack := rest,
           opt := w.opt }
        ((if w.state = State.CData then
            (if w.preserve_whitespaces = false then
                nlBytes w.opt.indent w.preserve_whitespaces ++
                  ndBytes w.preserve_whitespaces rest.length w.opt.indent
              else []) ++ cdataEnd
          else
            if w.preserve_whitespaces = false then
              nlBytes w.opt.indent w.preserve_whitespaces ++
                ndBytes w.preserve_whitespaces rest.length w.opt.indent
            else []) ++ [60, 47])) := by
  unfold end_element
  simp [h, hc, hn, write_new_line_eq, write_node_indent_eq, List.append_assoc]

/-- Every frame of the stack carries an element name. -/
def FramesNamed (l : List DepthData) : Prop := ∀ f ∈ l, f.element_name ≠ none

theorem FramesNamed_nil : FramesNamed [] := by
  intro f hf
  simp at hf

theorem FramesNamed_markChildren (l : List DepthData) (h : FramesNamed l) :
    FramesNamed (markChildren l) := by
  intro f hf
  obtain ⟨g, hg, hge⟩ := markChildren_names l f hf
  rw [← hge]
  exact h g hg

theorem FramesNamed_of_cons (d : DepthData) (l : List DepthData)
    (h : FramesNamed (d :: l)) : FramesNamed l :=
  fun f hf => h f (List.mem_cons_of_mem d hf)

theorem end_element_isOk (w : XmlWriter) (hn : FramesNamed w.depth_stack) :
    ∃ wA, end_element w = .ok wA := by
  cases h : w.depth_stack with
  | nil => exact ⟨_, end_element_empty w h⟩
  | cons depth rest =>
    cases hc : depth.has_children with
    | false => exact ⟨_, end_element_cons_childless w depth rest h hc⟩
    | true =>
      cases hne : depth.element_name with
      | none => exact absurd hne (hn depth (h ▸ List.mem_cons_self depth rest))
      | some name => exact ⟨_, end_element_cons_named w depth rest name h hc hne⟩

/-- The `end_document` closing loop succeeds on a fully named stack,
empties the stack, and either writes nothing (already-empty stack) or
leaves the sink ending in `>` (byte 62). -/
theorem end_document_go_spec (n : Nat) (w : XmlWriter) (hn : FramesNamed w.depth_stack)
    (hlen : w.depth_stack.length ≤ n) :
    ∃ wA, end_document_go n w = .ok wA ∧ wA.depth_stack = [] ∧
      wA.preserve_whitespaces = w.preserve_whitespaces ∧ wA.opt = w.opt ∧
      ((w.depth_stack = [] ∧ wA.out = w.out) ∨ wA.out.getLast? = some 62) := by
  induction n generalizing w with
  | zero =>
    have hstk : w.depth_stack = [] :=
      List.eq_nil_of_length_eq_zero (Nat.le_zero.1 hlen)
    exact ⟨w, rfl, hstk, rfl, rfl, Or.inl ⟨hstk, rfl⟩⟩
  | succ n ih =>
    by_cases h : w.depth_stack = []
    · exact ⟨w, by simp [end_document_go, h], h, rfl, rfl, Or.inl ⟨h, rfl⟩⟩
    · cases hs : w.depth_stack with
      | nil => exact absurd hs h
      | cons depth rest =>
        have hrest : FramesNamed rest := by
          rw [hs] at hn
          exact FramesNamed_of_cons depth rest hn
        have hlen2 : rest.length ≤ n := by
          rw [hs] at hlen
          simpa using hlen
        cases hc : depth.has_children with
        | false =>
          have hok := end_element_cons_childless w depth rest hs hc
          obtain ⟨wA, hgo, hstk, hpw, hopt, hout⟩ :=
            ih
              { out := w.out ++ [47, 62], state := State.Document,
                preserve_whitespaces := w.preserve_whitespaces,
                depth_stack := rest, opt := w.opt } hrest hlen2
          refine ⟨wA, ?_, hstk, hpw, hopt, ?_⟩
          · rw [end_document_go, if_neg h]
            simp only [hok]
            exact hgo
          · rcases hout with ⟨-, hout⟩ | hout
            · right
              rw [hout]
              simp
            · right
              exact hout
        | true =>
          cases hne : depth.element_name with
          | none =>
            exact absurd hne (hn depth (hs ▸ List.mem_cons_self depth rest))
          | some name =>
            have hok := end_element_cons_named w depth rest name hs hc hne
            obtain ⟨wA, hgo, hstk, hpw, hopt, hout⟩ :=
              ih
                { out := w.out ++
                    ((if w.state = State.CData then
                        (if w.preserve_whitespaces = false then
                            nlBytes w.opt.indent w.preserve_whitespaces ++
                              ndBytes w.preserve_whitespaces rest.length w.opt.indent
                          else []) ++ cdataEnd
                      else
                        if w.preserve_whitespaces = false then
                          nlBytes w.opt.indent w.preserve_whitespaces ++
                            ndBytes w.preserve_whitespaces rest.length w.opt.indent
                        else []) ++ 60 :: 47 :: (name ++ [62])),
                  state := State.Document,
                  preserve_whitespaces := w.preserve_whitespaces,
                  depth_stack := rest, opt := w.opt } hrest hlen2
            refine ⟨wA, ?_, hstk, hpw, hopt, ?_⟩
            · rw [end_document_go, if_neg h]
              simp only [hok]
              exact hgo
            · rcases hout with ⟨-, hout⟩ | hout
              · right
                rw [hout]
                simp
              · right
                exact hout

/-- The structural invariant maintained by every public operation: a
pending `Attributes` state implies a nonempty stack, every frame is named,
and with an empty stack the sink is empty or ends in `>` (byte 62). -/
def Inv (w : XmlWriter) : Prop :=
  (w.state = State.Attributes → w.depth_stack ≠ []) ∧
  FramesNamed w.depth_stack ∧
  (w.depth_stack = [] → w.out = [] ∨ w.out.getLast? = some 62)

theorem inv_new (opt : Options) : Inv (new opt) :=
  ⟨fun h => by simp [new] at h, FramesNamed_nil, fun _ => Or.inl rfl⟩

theorem markChildren_ne_nil (l : List DepthData) (h : l ≠ []) :
    markChildren l ≠ [] := by
  cases l with
  | nil => exact absurd rfl h
  | cons d r => simp [markChildren]

theorem FramesNamed_ite (w : XmlWriter) (h2 : FramesNamed w.depth_stack) :
    FramesNamed (if w.state = State.Attributes then markChildren w.depth_stack
      else w.depth_stack) := by
  split
  · exact FramesNamed_markChildren _ h2
  · exact h2

theorem ite_stack_ne (w : XmlWriter) (h : w.depth_stack ≠ []) :
    (if w.state = State.Attributes then markChildren w.depth_stack
      else w.depth_stack) ≠ [] := by
  split
  · exact markChildren_ne_nil _ h
  · exact h

/-- Every successful public operation preserves the structural invariant. -/
theorem inv_step (op : Op) (w wA : XmlWriter) (hI : Inv w) (h : step op w = .ok wA) :
    Inv wA := by
  obtain ⟨h1, h2, h3⟩ := hI
  cases op with
  | write_declaration =>
    simp only [step] at h
    by_cases hE : w.state = State.Empty
    · obtain ⟨wB, heq, hst, hstk, hpw, hopt, hlast⟩ := write_declaration_spec w hE
      rw [heq] at h
      injection h with hB
      subst hB
      refine ⟨fun ha => ?_, ?_, fun _ => Or.inr hlast⟩
      · rw [hst] at ha
        exact State.noConfusion ha
      · rw [hstk]
        exact h2
    · rw [write_declaration, if_pos (by simp [hE])] at h
      exact Except.noConfusion h
  | write_comment t =>
    simp only [step] at h
    injection h with hB
    subst hB
    obtain ⟨hst, hstk, hpw, hopt, hlast⟩ := write_comment_fmt_spec w t h1
    refine ⟨fun ha => ?_, ?_, fun _ => Or.inr hlast⟩
    · rw [hst] at ha
      exact State.noConfusion ha
    · rw [hstk]
      exact FramesNamed_ite w h2
  | start_element name =>
    simp only [step] at h
    injection h with hB
    subst hB
    obtain ⟨hst, hstk, hpw, hopt, hout⟩ := start_element_spec w name h1
    refine ⟨fun _ => ?_, ?_, fun hnil => ?_⟩
    · rw [hstk]
      exact List.cons_ne_nil _ _
    · rw [hstk]
      intro f hf
      rcases List.mem_cons.1 hf with rfl | hf2
      · simp
      · exact FramesNamed_ite w h2 f hf2
    · rw [hstk] at hnil
      exact absurd hnil (List.cons_ne_nil _ _)
  | write_attribute name value =>
    simp only [step] at h
    by_cases hs : w.state = State.Attributes
    · obtain ⟨wB, heq, hst, hstk, hpw, hopt, hout⟩ :=
        (write_attribute_fmt_spec w name value).2 hs
      rw [heq] at h
      injection h with hB
      subst hB
      refine ⟨fun _ => ?_, ?_, fun hnil => ?_⟩
      · rw [hstk]
        exact h1 hs
      · rw [hstk]
        exact h2
      · rw [hstk] at hnil
        exact absurd hnil (h1 hs)
    · rw [(write_attribute_fmt_spec w name value).1 hs] at h
      exact Except.noConfusion h
  | write_attribute_raw name raw =>
    simp only [step] at h
    by_cases hs : w.state = State.Attributes
    · obtain ⟨wB, heq, hst, hstk, hpw, hopt, hout⟩ :=
        (write_attribute_raw_spec w name raw).2 hs
      rw [heq] at h
      injection h with hB
      subst hB
      refine ⟨fun _ => ?_, ?_, fun hnil => ?_⟩
      · rw [hstk]
        exact h1 hs
      · rw [hstk]
        exact h2
      · rw [hstk] at hnil
        exact absurd hnil (h1 hs)
    · rw [(write_attribute_raw_spec w name raw).1 hs] at h
      exact Except.noConfusion h
  | write_text t =>
    simp only [step] at h
    by_cases hne : w.state = State.Empty ∨ w.depth_stack = []
    · rw [write_text_fmt_impl, if_pos hne] at h
      exact Except.noConfusion h
    · obtain ⟨wB, heq, hst, hstk, hpw, hopt, hout⟩ :=
        write_text_fmt_impl_spec w t false h1 hne
      rw [heq] at h
      injection h with hB
      subst hB
      have hstkne : w.depth_stack ≠ [] := fun hh => hne (Or.inr hh)
      refine ⟨fun ha => ?_, ?_, fun hnil => ?_⟩
      · rw [hst] at ha
        simp at ha
      · rw [hstk]
        exact FramesNamed_ite w h2
      · rw [hstk] at hnil
        exact absurd hnil (ite_stack_ne w hstkne)
  | write_cdata_text t =>
    simp only [step] at h
    rw [write_cdata_text] at h
    by_cases hcont : containsSub cdataEnd t = true
    · rw [if_pos hcont] at h
      exact Except.noConfusion h
    · rw [if_neg (by simpa using hcont)] at h
      by_cases hne : w.state = State.Empty ∨ w.depth_stack = []
      · rw [write_text_fmt_impl, if_pos hne] at h
        exact Except.noConfusion h
      · obtain ⟨wB, heq, hst, hstk, hpw, hopt, hout⟩ :=
          write_text_fmt_impl_spec w t true h1 hne
        rw [heq] at h
        injection h with hB
        subst hB
        have hstkne : w.depth_stack ≠ [] := fun hh => hne (Or.inr hh)
        refine ⟨fun ha => ?_, ?_, fun hnil => ?_⟩
        · rw [hst] at ha
          simp at ha
        · rw [hstk]
          exact FramesNamed_ite w h2
        · rw [hstk] at hnil
          exact absurd hnil (ite_stack_ne w hstkne)
  | end_element =>
    simp only [step] at h
    cases hstk : w.depth_stack with
    | nil =>
      rw [end_element_empty w hstk] at h
      injection h with hB
      subst hB
      refine ⟨fun ha => State.noConfusion ha, ?_, fun _ => h3 hstk⟩
      show FramesNamed w.depth_stack
      rw [hstk]
      exact FramesNamed_nil
    | cons depth rest =>
      cases hc : depth.has_children with
      | false =>
        rw [end_element_cons_childless w depth rest hstk hc] at h
        injection h with hB
        subst hB
        refine ⟨fun ha => State.noConfusion ha,
          FramesNamed_of_cons depth rest (hstk ▸ h2), fun _ => Or.inr ?_⟩
        show (w.out ++ [47, 62]).getLast? = some 62
        simp
      | true =>
        cases hne2 : depth.element_name with
        | none =>
          rw [end_element_cons_unnamed w depth rest hstk hc hne2] at h
          exact Except.noConfusion h
        | some name =>
          rw [end_element_cons_named w depth rest name hstk hc hne2] at h
          injection h with hB
          subst hB
          refine ⟨fun ha => State.noConfusion ha,
            FramesNamed_of_cons depth rest (hstk ▸ h2), fun _ => Or.inr ?_⟩
          simp
  | set_preserve_whitespaces b =>
    simp only [step] at h
    injection h with hB
    subst hB
    exact ⟨h1, h2, h3⟩

/-- Running any list of public operations preserves the invariant. -/
theorem inv_run (ops : List Op) (w wA : XmlWriter) (hI : Inv w)
    (h : run ops w = .ok wA) : Inv wA := by
  induction ops generalizing w with
  | nil =>
    simp only [run] at h
    injection h with hB
    subst hB
    exact hI
  | cons op ops ih =>
    simp only [run] at h
    cases hst : step op w with
    | error e =>
      rw [hst] at h
      exact Except.noConfusion h
    | ok w1 =>
      rw [hst] at h
      exact ih w1 (inv_step op w w1 hI hst) h

/-- C4: for every input escaped in Text (`escape_quotes = false`) or
AttributeValue (`escape_quotes = true`) context, decoding the emitted
escaped output (replacing the five escape sequences by their characters)
yields the original string, and the emitted output contains no literal `<`
or `>` byte at all and no `&` byte outside an escape sequence. -/
theorem claim_C4_roundtrip_escaping (s : List Nat) (eq usq : Bool) :
    unescape (write_escaped s eq usq) = s ∧
    escapedOk (write_escaped s eq usq) = true := by
  rw [write_escaped_eq_join]
  induction s with
  | nil => exact ⟨unescape_nil, escapedOk_nil⟩
  | cons b rest ih =>
    rw [List.map_cons, List.flatten_cons]
    exact ⟨by rw [unescape_block, ih.1], by rw [escapedOk_block, ih.2]⟩

/-- C3: in AttributeValue context the escaping engine is the per-byte
substitution `escBlock true usq`, under which the byte `'` (39) is replaced
by `&apos;` exactly when the quote style is single, the byte `"` (34) is
replaced by `&quot;` exactly when it is double, and the non-active quote
byte is always passed through unchanged. -/
theorem claim_C3_attribute_quote_context :
    (∀ (s : List Nat) (usq : Bool),
      write_escaped s true usq = (s.map (escBlock true usq)).flatten) ∧
    escBlock true true 39 = aposSeq ∧
    escBlock true false 39 = [39] ∧
    escBlock true false 34 = quotSeq ∧
    escBlock true true 34 = [34] ∧
    aposSeq = [38, 97, 112, 111, 115, 59] ∧
    quotSeq = [38, 113, 117, 111, 116, 59] := by
  refine ⟨fun s usq => write_escaped_eq_join s true usq, ?_, ?_, ?_, ?_, rfl, rfl⟩ <;> decide

/-- C8: `write_cdata_text` raises the CDATA-terminator fatal precondition
exactly when its text contains the literal `]]>`, and the error carries the
writer unchanged: nothing has been written to the sink. -/
theorem claim_C8_cdata_terminator_fatal (w : XmlWriter) (text : List Nat) :
    write_cdata_text w text = .error (Panic.cdataForbidden, w) ↔
      containsSub cdataEnd text = true := by
  rw [write_cdata_text]
  by_cases hc : containsSub cdataEnd text = true
  · simp [hc]
  · rw [if_neg (by simpa using hc)]
    constructor
    · intro h
      by_cases hne : w.state = State.Empty ∨ w.depth_stack = []
      · rw [write_text_fmt_impl, if_pos hne] at h
        injection h with h2
        injection h2 with h3
        exact Panic.noConfusion h3
      · obtain ⟨wB, heq, -⟩ :=
          write_text_fmt_impl_spec w text true
            (fun _ => fun hh => hne (Or.inr hh)) hne
        rw [heq] at h
        exact Except.noConfusion h
    · intro h
      exact absurd h hc

/-- C2 counterexample: an extra `end_element` on the empty stack of a fresh
writer changes the bytes subsequently produced — the next element is
preceded by a newline that would not be there otherwise. -/
theorem claim_C2_counterexample :
    (run [Op.end_element, Op.start_element [97]] (new defaultOptions)).toOption.map
        XmlWriter.out ≠
      (run [Op.start_element [97]] (new defaultOptions)).toOption.map XmlWriter.out := by
  decide

/-- C2 amended: an extra `end_element` on an empty nesting stack never
fails or panics and writes no bytes; its entire effect is to set the
lifecycle state to `Document`.  In particular it is a complete no-op when
the state already is `Document` — but not when the writer is still in the
initial `Empty` state. -/
theorem claim_C2_amended (w : XmlWriter) (h : w.depth_stack = []) :
    end_element w = .ok { w with state := State.Document } ∧
    (w.state = State.Document → end_element w = .ok w) := by
  refine ⟨end_element_empty w h, fun hd => ?_⟩
  rw [end_element_empty w h]
  cases w with
  | mk o s p d opt =>
    simp only at hd
    rw [hd]

theorem claim_C2_amended_witness :
    end_element (new defaultOptions) =
      .ok { new defaultOptions with state := State.Document } ∧
    ((new defaultOptions).state = State.Document →
      end_element (new defaultOptions) = .ok (new defaultOptions)) :=
  claim_C2_amended (new defaultOptions) rfl

theorem not_mem_62_nlBytes (i : Indent) (pw : Bool) : (62 : Nat) ∉ nlBytes i pw := by
  unfold nlBytes
  split <;> simp

theorem not_mem_62_indentUnit (i : Indent) : (62 : Nat) ∉ indentUnit i := by
  cases i <;> simp [indentUnit, List.mem_replicate]

theorem not_mem_62_ndBytes (pw : Bool) (d : Nat) (i : Indent) :
    (62 : Nat) ∉ ndBytes pw d i := by
  unfold ndBytes
  split
  · simp
  · intro hmem
    obtain ⟨l, hl, hx⟩ := List.mem_flatten.1 hmem
    rw [List.eq_of_mem_replicate hl] at hx
    exact not_mem_62_indentUnit i hx

/-- C10: writing a plain text node while the writer is in the `CData` state
never terminates the open CDATA section.  First conjunct: from state
`CData` the call succeeds, emits only newline, indentation and the escaped
text (bytes that cannot contain `]]>` because `>` is always escaped) and
moves the state to `Document` without touching the stack.  Second conjunct:
in the concrete scenario `start_element "a"; write_cdata_text "x";
write_text "y"; end_element; end_document` the produced document contains
an unterminated `<![CDATA[` and no `]]>` at all. -/
theorem claim_C10_text_in_cdata_state :
    (∀ (w : XmlWriter) (t : List Nat),
      w.state = State.CData → w.depth_stack ≠ [] →
      ∃ d, write_text_fmt_impl w t false =
          .ok { w with out := w.out ++ d, state := State.Document } ∧
        containsSub cdataEnd d = false) ∧
    (run [Op.start_element [97], Op.write_cdata_text [120], Op.write_text [121],
        Op.end_element] (new defaultOptions)).toOption.bind
        (fun w => (end_document w).toOption) =
      some [60, 97, 62, 60, 33, 91, 67, 68, 65, 84, 65, 91, 10, 32, 32, 32, 32, 120,
        10, 32, 32, 32, 32, 121, 10, 60, 47, 97, 62, 10] ∧
    containsSub [60, 33, 91, 67, 68, 65, 84, 65, 91]
      [60, 97, 62, 60, 33, 91, 67, 68, 65, 84, 65, 91, 10, 32, 32, 32, 32, 120,
        10, 32, 32, 32, 32, 121, 10, 60, 47, 97, 62, 10] = true ∧
    containsSub cdataEnd
      [60, 97, 62, 60, 33, 91, 67, 68, 65, 84, 65, 91, 10, 32, 32, 32, 32, 120,
        10, 32, 32, 32, 32, 121, 10, 60, 47, 97, 62, 10] = false := by
  refine ⟨?_, by decide, by decide, by decide⟩
  intro w t hst hstk
  refine ⟨nlBytes w.opt.indent w.preserve_whitespaces ++
    (ndBytes w.preserve_whitespaces w.depth_stack.length w.opt.indent ++
      write_escaped t false w.opt.use_single_quote),
    write_text_fmt_impl_from_cdata w t hst hstk, ?_⟩
  apply containsSub_cdataEnd_eq_false
  intro hmem
  rcases List.mem_append.1 hmem with hmem | hmem
  · exact not_mem_62_nlBytes _ _ hmem
  · rcases List.mem_append.1 hmem with hmem | hmem
    · exact not_mem_62_ndBytes _ _ _ hmem
    · exact write_escaped_not_mem_62 _ _ _ hmem

/-- Writer state reached by `start_element "a"; write_cdata_text "x"` from
a fresh default writer: inside an open CDATA section. -/
def cdataScenarioWriter : XmlWriter :=
  { out := [60, 97, 62, 60, 33, 91, 67, 68, 65, 84, 65, 91, 10, 32, 32, 32, 32, 120],
    state := State.CData, preserve_whitespaces := false,
    depth_stack := [⟨some [97], true⟩], opt := defaultOptions }

theorem claim_C10_witness :
    ∃ d, write_text_fmt_impl cdataScenarioWriter [121] false =
        .ok { cdataScenarioWriter with
              out := cdataScenarioWriter.out ++ d,
              state := State.Document } ∧
      containsSub cdataEnd d = false :=
  claim_C10_text_in_cdata_state.1 cdataScenarioWriter [121] rfl (by decide)

/-- The bytes of `<?xml version="1.0" encoding="UTF-8" standalone="no"?>`,
with the configured quote byte around each value. -/
def declBytes (usq : Bool) : List Nat :=
  [60, 63, 120, 109, 108] ++
  [32] ++ [118, 101, 114, 115, 105, 111, 110] ++ [61] ++ [quoteChar usq] ++
    [49, 46, 48] ++ [quoteChar usq] ++
  [32] ++ [101, 110, 99, 111, 100, 105, 110, 103] ++ [61] ++ [quoteChar usq] ++
    [85, 84, 70, 45, 56] ++ [quoteChar usq] ++
  [32] ++ [115, 116, 97, 110, 100, 97, 108, 111, 110, 101] ++ [61] ++ [quoteChar usq] ++
    [110, 111] ++ [quoteChar usq] ++
  [63, 62]

/-- C5 counterexample: with attribute indentation configured
(`Indent.spaces 2`), `write_declaration` from the `Empty` state does not
emit the single-line declaration bytes — each pseudo-attribute is placed on
its own line. -/
theorem claim_C5_counterexample :
    (write_declaration (new
        { use_single_quote := false, indent := Indent.spaces 4,
          attributes_indent := Indent.spaces 2 })).toOption.map XmlWriter.out ≠
      some (declBytes false) := by
  decide

/-- C5 amended: for every writer in state `Empty` whose attribute-indent
option is `Indent.none` (the default), `write_declaration` emits exactly
the declaration bytes with the configured quote character, regardless of
the element indent option and the preserve-whitespace flag, and leaves the
writer in state `Document`; in any other state it is the fatal
`declaration was already written` panic, with nothing written. -/
theorem claim_C5_amended (w : XmlWriter) :
    (w.state = State.Empty → w.opt.attributes_indent = Indent.none →
      write_declaration w =
        .ok { w with out := w.out ++ declBytes w.opt.use_single_quote,
                     state := State.Document }) ∧
    (w.state ≠ State.Empty →
      write_declaration w = .error (Panic.declarationAlreadyWritten, w)) := by
  constructor
  · intro hE ha
    rw [write_declaration, if_neg (by simp [hE])]
    simp [write_attribute_raw_body_eq, leadBytes, ha, declBytes, List.append_assoc]
  · intro hE
    rw [write_declaration, if_pos hE]

theorem claim_C5_amended_witness :
    write_declaration (new defaultOptions) =
      .ok { new defaultOptions with
        out := (new defaultOptions).out ++ declBytes (new defaultOptions).opt.use_single_quote,
        state := State.Document } :=
  (claim_C5_amended (new defaultOptions)).1 rfl rfl

/-- C9: in every writer state reachable from a fresh writer through the
public operations, every frame on the nesting stack carries an element
name (the placeholder push with `element_name = none` after a comment or
text node is unreachable): `end_element` never hits its name-lookup panic,
and comment and text writes never grow the stack. -/
theorem claim_C9_placeholder_unreachable (opt : Options) (ops : List Op)
    (w : XmlWriter) (h : run ops (new opt) = .ok w) :
    FramesNamed w.depth_stack ∧
    (∃ wA, end_element w = .ok wA) ∧
    (∀ (t : List Nat) (wB : XmlWriter), step (Op.write_comment t) w = .ok wB →
      wB.depth_stack.length = w.depth_stack.length) ∧
    (∀ (t : List Nat) (wB : XmlWriter), step (Op.write_text t) w = .ok wB →
      wB.depth_stack.length = w.depth_stack.length) := by
  obtain ⟨h1, h2, h3⟩ := inv_run ops (new opt) w (inv_new opt) h
  refine ⟨h2, end_element_isOk w h2, ?_, ?_⟩
  · intro t wB hB
    simp only [step] at hB
    injection hB with hB2
    subst hB2
    obtain ⟨-, hstk, -⟩ := write_comment_fmt_spec w t h1
    rw [hstk]
    split <;> simp
  · intro t wB hB
    simp only [step] at hB
    by_cases hne : w.state = State.Empty ∨ w.depth_stack = []
    · rw [write_text_fmt_impl, if_pos hne] at hB
      exact Except.noConfusion hB
    · obtain ⟨wC, heq, -, hstk, -⟩ := write_text_fmt_impl_spec w t false h1 hne
      rw [heq] at hB
      injection hB with hB2
      subst hB2
      rw [hstk]
      split <;> simp

/-- Writer state reached by `start_element "a"` from a fresh default
writer. -/
def aStartedWriter : XmlWriter :=
  { out := [60, 97], state := State.Attributes, preserve_whitespaces := false,
    depth_stack := [⟨some [97], false⟩], opt := defaultOptions }

theorem claim_C9_witness :
    FramesNamed aStartedWriter.depth_stack ∧
    (∃ wA, end_element aStartedWriter = .ok wA) ∧
    (∀ (t : List Nat) (wB : XmlWriter),
      step (Op.write_comment t) aStartedWriter = .ok wB →
      wB.depth_stack.length = aStartedWriter.depth_stack.length) ∧
    (∀ (t : List Nat) (wB : XmlWriter),
      step (Op.write_text t) aStartedWriter = .ok wB →
      wB.depth_stack.length = aStartedWriter.depth_stack.length) :=
  claim_C9_placeholder_unreachable defaultOptions [Op.start_element [97]]
    aStartedWriter rfl

/-- C7 counterexample: with the preserve-whitespace flag set at
finalization time, the produced stream does not end with a trailing
newline even though indentation is enabled (the default `Indent.spaces 4`).
-/
theorem claim_C7_counterexample :
    (run [Op.set_preserve_whitespaces true, Op.start_element [97]]
        (new defaultOptions)).toOption.bind (fun w => (end_document w).toOption) =
      some [60, 97, 47, 62] ∧
    ([60, 97, 47, 62] : List Nat).getLast? ≠ some 10 ∧
    defaultOptions.indent ≠ Indent.none := by
  decide

/-- C7 amended: from any state reachable through the public operations,
`end_document` never panics: it closes every still-open element innermost
first (one `end_element` at a time, the loop conjunct) and returns the
sink; the returned byte stream ends with exactly one trailing newline
provided indentation is enabled and the preserve-whitespace flag is clear
at finalization time. -/
theorem claim_C7_amended (opt : Options) (ops : List Op) (w : XmlWriter)
    (h : run ops (new opt) = .ok w) :
    (∃ s, end_document w = .ok s ∧
      (w.opt.indent ≠ Indent.none → w.preserve_whitespaces = false →
        s.getLast? = some 10 ∧ s.dropLast.getLast? ≠ some 10)) ∧
    (∀ wB, end_element w = .ok wB → w.depth_stack ≠ [] →
      end_document w = end_document wB) := by
  obtain ⟨h1, h2, h3⟩ := inv_run ops (new opt) w (inv_new opt) h
  constructor
  · obtain ⟨wA, hgo, hstk, hpw, hopt, hout⟩ :=
      end_document_go_spec w.depth_stack.length w h2 le_rfl
    refine ⟨(write_new_line wA).out, ?_, ?_⟩
    · unfold end_document
      rw [hgo]
    · intro hio hpw2
      have hnl : write_new_line wA = wr wA [10] := by
        rw [write_new_line_eq]
        rw [hopt, hpw, hpw2]
        simp [nlBytes, hio]
      rw [hnl]
      refine ⟨by simp, ?_⟩
      show (wA.out ++ [10]).dropLast.getLast? ≠ some 10
      rw [List.dropLast_concat]
      rcases hout with ⟨hnil, houteq⟩ | hlast
      · rw [houteq]
        rcases h3 hnil with hnil2 | h62
        · rw [hnil2]
          simp
        · rw [h62]
          simp
      · rw [hlast]
        simp
  · intro wB hB hstk
    have hlen : w.depth_stack.length = wB.depth_stack.length + 1 := by
      rw [end_element_stack w wB hB]
      cases hs : w.depth_stack with
      | nil => exact absurd hs hstk
      | cons d r => simp
    unfold end_document
    rw [hlen, end_document_go, if_neg hstk]
    simp only [hB]

theorem claim_C7_amended_witness :
    ∃ s, end_document aStartedWriter = .ok s ∧ s.getLast? = some 10 ∧
      s.dropLast.getLast? ≠ some 10 := by
  obtain ⟨⟨s, hok, himp⟩, -⟩ :=
    claim_C7_amended defaultOptions [Op.start_element [97]] aStartedWriter rfl
  exact ⟨s, hok, himp (by decide) rfl⟩

/-- Replace the element indent option, keeping everything else. -/
def setIndent (w : XmlWriter) (i : Indent) : XmlWriter :=
  { w with opt := { w.opt with indent := i } }

/-- Map a function over the writer both in the success and in the panic
result. -/
def mapW (f : XmlWriter → XmlWriter) :
    Except (Panic × XmlWriter) XmlWriter → Except (Panic × XmlWriter) XmlWriter
  | .error (p, v) => .error (p, f v)
  | .ok v => .ok (f v)

@[simp] theorem setIndent_out (w : XmlWriter) (i : Indent) :
    (setIndent w i).out = w.out := rfl

@[simp] theorem setIndent_state (w : XmlWriter) (i : Indent) :
    (setIndent w i).state = w.state := rfl

@[simp] theorem setIndent_stack (w : XmlWriter) (i : Indent) :
    (setIndent w i).depth_stack = w.depth_stack := rfl

@[simp] theorem setIndent_pw (w : XmlWriter) (i : Indent) :
    (setIndent w i).preserve_whitespaces = w.preserve_whitespaces := rfl

@[simp] theorem setIndent_usq (w : XmlWriter) (i : Indent) :
    (setIndent w i).opt.use_single_quote = w.opt.use_single_quote := rfl

@[simp] theorem setIndent_ai (w : XmlWriter) (i : Indent) :
    (setIndent w i).opt.attributes_indent = w.opt.attributes_indent := rfl

theorem step_setIndent (w : XmlWriter) (op : Op) (i : Indent)
    (hp : w.preserve_whitespaces = true)
    (ha : w.opt.attributes_indent = Indent.none) :
    step op (setIndent w i) = mapW (fun v => setIndent v i) (step op w) := by
  cases op with
  | write_declaration =>
    by_cases hE : w.state = State.Empty <;>
      simp [step, write_declaration, setIndent, mapW, hE,
        write_attribute_raw_body_eq, leadBytes, ha, quoteChar, wr]
  | write_comment t =>
    by_cases hs : w.state = State.Attributes
    · cases hstk : w.depth_stack <;>
        simp [step, write_comment_fmt, write_open_element, write_new_line,
          write_node_indent, write_indent, setIndent, mapW, hs, hstk, hp, wr]
    · by_cases he : w.state = State.Empty <;>
        simp [step, write_comment_fmt, write_open_element, write_new_line,
          write_node_indent, write_indent, setIndent, mapW, hs, he, hp, wr]
  | start_element name =>
    by_cases hs : w.state = State.Attributes
    · cases hstk : w.depth_stack <;>
        simp [step, start_element, write_open_element, write_new_line,
          write_node_indent, write_indent, setIndent, mapW, hs, hstk, hp, wr]
    · by_cases he : w.state = State.Empty <;>
        simp [step, start_element, write_open_element, write_new_line,
          write_node_indent, write_indent, setIndent, mapW, hs, he, hp, wr]
  | write_attribute name value =>
    by_cases hs : w.state = State.Attributes <;>
      simp [step, write_attribute_fmt, write_attribute_lead_eq, leadBytes, ha,
        quoteChar, write_quote_eq, setIndent, mapW, hs, wr]
  | write_attribute_raw name raw =>
    by_cases hs : w.state = State.Attributes <;>
      simp [step, write_attribute_raw, write_attribute_raw_body_eq, leadBytes, ha,
        quoteChar, setIndent, mapW, hs, wr]
  | write_text t =>
    by_cases hne : w.state = State.Empty ∨ w.depth_stack = []
    · simp [step, write_text_fmt_impl, setIndent, mapW, hne]
    · have hstkne : ¬ w.depth_stack = [] := fun hh => hne (Or.inr hh)
      have hE : ¬ w.state = State.Empty := fun hh => hne (Or.inl hh)
      by_cases hs : w.state = State.Attributes
      · cases hstk : w.depth_stack <;>
          simp [step, write_text_fmt_impl, write_open_element, write_new_line,
            write_node_indent, write_indent, setIndent, mapW, hne, hs, hstk, hp, wr]
      · by_cases hcd : w.state = State.CData <;>
          simp [step, write_text_fmt_impl, write_open_element, write_new_line,
            write_node_indent, write_indent, setIndent, mapW, hne, hstkne, hE, hs,
            hcd, hp, wr]
  | write_cdata_text t =>
    by_cases hcont : containsSub cdataEnd t = true
    · simp [step, write_cdata_text, setIndent, mapW, hcont]
    · by_cases hne : w.state = State.Empty ∨ w.depth_stack = []
      · simp [step, write_cdata_text, write_text_fmt_impl, setIndent, mapW, hcont, hne]
      · have hstkne : ¬ w.depth_stack = [] := fun hh => hne (Or.inr hh)
        have hE : ¬ w.state = State.Empty := fun hh => hne (Or.inl hh)
        by_cases hs : w.state = State.Attributes
        · cases hstk : w.depth_stack <;>
            simp [step, write_cdata_text, write_text_fmt_impl, write_open_element,
              write_new_line, write_node_indent, write_indent, setIndent, mapW,
              hcont, hne, hs, hstk, hp, wr]
        · by_cases hcd : w.state = State.CData <;>
            simp [step, write_cdata_text, write_text_fmt_impl, write_open_element,
              write_new_line, write_node_indent, write_indent, setIndent, mapW,
              hcont, hne, hstkne, hE, hs, hcd, hp, wr]
  | end_element =>
    cases hstk : w.depth_stack with
    | nil => simp [step, end_element, setIndent, mapW, hstk]
    | cons depth rest =>
      cases hc : depth.has_children with
      | false => simp [step, end_element, setIndent, mapW, hstk, hc]
      | true =>
        cases hn : depth.element_name with
        | none =>
          by_cases hcd : w.state = State.CData <;>
            simp [step, end_element, write_new_line, write_node_indent, write_indent,
              setIndent, mapW, hstk, hc, hn, hcd, hp, wr]
        | some name =>
          by_cases hcd : w.state = State.CData <;>
            simp [step, end_element, write_new_line, write_node_indent, write_indent,
              setIndent, mapW, hstk, hc, hn, hcd, hp, wr]
  | set_preserve_whitespaces b =>
    simp [step, set_preserve_whitespaces, setIndent, mapW]


/-- C6 counterexample: with attribute indentation configured
(`Indent.spaces 2`), `write_attribute` emits its separator newline byte
(10) even while the preserve-whitespace flag is set. -/
theorem claim_C6_counterexample :
    (run [Op.set_preserve_whitespaces true, Op.start_element [97],
        Op.write_attribute [120] [49]]
      (new { use_single_quote := false, indent := Indent.spaces 4,
             attributes_indent := Indent.spaces 2 })).toOption.map XmlWriter.out =
      some [60, 97, 10, 120, 61, 34, 49, 34] ∧
    (10 : Nat) ∈ [60, 97, 10, 120, 61, 34, 49, 34] := by
  decide

/-- C6 amended: while the preserve-whitespace flag is set, the newline and
indentation helpers write nothing, and — provided the attribute indent
style is `Indent.none` — the bytes produced by every public operation are
independent of the configured element indent style (changing it only
changes the stored option).  The exception forced by the counterexample:
with a non-`none` attribute indent style, attribute writes still emit
their separator newline byte even while the flag is set. -/
theorem claim_C6_amended (w : XmlWriter) (op : Op) (i : Indent)
    (hp : w.preserve_whitespaces = true)
    (ha : w.opt.attributes_indent = Indent.none) :
    (∀ (d : Nat) (j : Indent), write_indent w d j = w) ∧
    write_new_line w = w ∧
    step op (setIndent w i) = mapW (fun v => setIndent v i) (step op w) := by
  refine ⟨fun d j => ?_, ?_, step_setIndent w op i hp ha⟩
  · unfold write_indent
    simp [hp]
  · unfold write_new_line
    simp [hp]

/-- Fresh default writer with the preserve-whitespace flag set. -/
def preservingWriter : XmlWriter :=
  { out := [], state := State.Empty, preserve_whitespaces := true,
    depth_stack := [], opt := defaultOptions }

theorem claim_C6_amended_witness :
    (∀ (d : Nat) (j : Indent), write_indent preservingWriter d j = preservingWriter) ∧
    write_new_line preservingWriter = preservingWriter ∧
    step (Op.start_element [97]) (setIndent preservingWriter Indent.tabs) =
      mapW (fun v => setIndent v Indent.tabs)
        (step (Op.start_element [97]) preservingWriter) :=
  claim_C6_amended preservingWriter (Op.start_element [97]) Indent.tabs rfl rfl

/-- Modelled from the spec: the `enable_self_closing` toggle of `Options`
is missing from `src/lib.rs` (its `Options` has no such field), although
`tests/tests.rs` constructs `Options { enable_self_closing: false, .. }`.
Spec section 4.1 describes `end_element` with the toggle: "if it has
children (or self-closing disabled), closes the CDATA section if open,
newline+indent at the frame's own depth unless preserving whitespace,
emits `</name>`; if no children and self-closing enabled, emits `/>`
instead; if no children and self-closing disabled, first emits `>` to
terminate the still-open start tag, then proceeds as the has-children
branch with an empty body". -/
def end_element_sc (enable_self_closing : Bool) (w : XmlWriter) :
    Except (Panic × XmlWriter) XmlWriter :=
  match w.depth_stack with
  | [] => .ok { w with state := State.Document }
  | depth :: rest =>
    let w1 := { w with depth_stack := rest }
    if depth.has_children = true ∨ enable_self_closing = false then
      let w2 := if depth.has_children = false ∧ enable_self_closing = false
        then wr w1 [62] else w1
      let w3 := if w2.preserve_whitespaces = false
        then write_node_indent (write_new_line w2) else w2
      let w4 := if w3.state = State.CData then wr w3 cdataEnd else w3
      let w5 := wr w4 [60, 47]
      match depth.element_name with
      | none => .error (Panic.missingElementName, w5)
      | some name => .ok { (wr w5 (name ++ [62])) with state := State.Document }
    else .ok { (wr w1 [47, 62]) with state := State.Document }

/-- Modelled from the spec: the closing loop of `end_document` with the
self-closing toggle, "repeatedly closes any still-open elements (LIFO)";
the loop runs its termination measure (the stack length) many times. -/
def end_document_go_sc (enable_self_closing : Bool) :
    Nat → XmlWriter → Except (Panic × XmlWriter) XmlWriter
  | 0, w => .ok w
  | fuel + 1, w =>
    if w.depth_stack = [] then .ok w
    else
      match end_element_sc enable_self_closing w with
      | .error e => .error e
      | .ok wA => end_document_go_sc enable_self_closing fuel wA

/-- Modelled from the spec: `end_document` with the self-closing toggle —
close every still-open element, write the trailing newline, return the
sink. -/
def end_document_sc (enable_self_closing : Bool) (w : XmlWriter) :
    Except (Panic × XmlWriter) (List Nat) :=
  match end_document_go_sc enable_self_closing w.depth_stack.length w with
  | .error e => .error e
  | .ok wA => .ok (write_new_line wA).out

/-- C1: with the self-closing toggle disabled and default options
otherwise, `start_element "empty1"; end_element()` followed by document
finalization produces exactly the bytes of `"<empty1>\n</empty1>\n"`: the
childless element is rendered as an explicit open/close pair, not as a
self-closed tag. -/
theorem claim_C1_disabled_self_closing :
    (end_element_sc false
        (start_element (new defaultOptions) [101, 109, 112, 116, 121, 49])).toOption.bind
        (fun w => (end_document_sc false w).toOption) =
      some [60, 101, 109, 112, 116, 121, 49, 62, 10,
        60, 47, 101, 109, 112, 116, 121, 49, 62, 10] := by
  decide

end Xmlwriter
